import Mathlib

/-!
Envsync: shallow embedding and verification.

A Lean embedding of the `envsync` Go package, which synchronizes a source
env file into a target env file.  The repository holds two variants of the
same package: a flat-writer variant (`envsync.go`) and a grouped-writer
variant (the second source file).  Both are embedded below; `Variant`
selects between them where they differ.

Modelling conventions:
* file contents and lines are `List Char` (byte text without carriage
  returns; the writers never emit them);
* `map[string]string` is an association list with distinct keys; Go map
  iteration order is unspecified, so the list order is a canonical
  representative and every consumer is either order-independent or sorts
  the keys first, exactly as the Go code does before writing;
* the file system visible to `Sync` is the triple of contents of the
  source path, the target path and the backup path (`None` = absent);
* the two fallible effects `Sync` meets after parsing (the backup `cp`
  and the final write) are fault-injection flags.
-/

namespace Envsync

/-- File contents and line fragments are modelled as lists of characters. -/
abbrev Str := List Char

/-- In-memory environment mapping (`map[string]string`), as an association
list with, by invariant, distinct keys. -/
abbrev EnvMap := List (Str × Str)

/-- First binding of a key, if any (Go `v, found := m[k]`). -/
def lookupEnv : EnvMap → Str → Option Str
  | [], _ => none
  | (k', v') :: rest, k => if k' = k then some v' else lookupEnv rest k

/-- Value of a key that is known to be present (Go `env[k]` inside the
write loops, where `k` ranges over the map's own keys). -/
def lookupD (env : EnvMap) (k : Str) : Str :=
  (lookupEnv env k).getD []

/-- The keys of a mapping, in representative order. -/
def keysOf (env : EnvMap) : List Str :=
  env.map Prod.fst

/-- Go map assignment `res[k] = v`: replace the binding of `k` if present,
otherwise add a binding. -/
def insertEnv : EnvMap → Str → Str → EnvMap
  | [], k, v => [(k, v)]
  | (k', v') :: rest, k, v =>
    if k' = k then (k, v) :: rest else (k', v') :: insertEnv rest k v

/-- Go `strings.SplitN(line, "=", 2)` together with the `len == 2` check in
`mapEnv`: split at the first `=`; `none` when the line has no `=`. -/
def splitLineEq : Str → Option (Str × Str)
  | [] => none
  | c :: cs =>
    if c = '=' then some ([], cs)
    else
      match splitLineEq cs with
      | none => none
      | some (k, v) => some (c :: k, v)

/-- Go `bufio.Scanner` with `bufio.ScanLines`: the newline-free lines of the
text; a trailing newline does not produce a final empty line. -/
def scanLines : Str → List Str
  | [] => []
  | c :: cs =>
    if c = '\n' then [] :: scanLines cs
    else
      match scanLines cs with
      | [] => [[c]]
      | l :: ls => (c :: l) :: ls

/-- The scanning loop of Go `mapEnv`, over an explicit list of lines and the
accumulated map: skip empty lines and lines whose first character is `#`
(`strings.HasPrefix(text, "#")`); split every other line at its first `=`;
on a line with no `=`, stop and report that line (the Go error message
carries the offending line), returning the partial map built so far. -/
def mapEnvLines : List Str → EnvMap → EnvMap × Option Str
  | [], res => (res, none)
  | l :: ls, res =>
    if l = [] then mapEnvLines ls res
    else if l.head? = some '#' then mapEnvLines ls res
    else
      match splitLineEq l with
      | none => (res, some l)
      | some (k, v) => mapEnvLines ls (insertEnv res k v)

/-- Go `mapEnv` on a whole file content. -/
def mapEnv (content : Str) : EnvMap × Option Str :=
  mapEnvLines (scanLines content) []

/-- The loop of Go `appendNewEnv`: for each source binding whose key is not
in the (mutating) target map, add it to the target map and record it as
added.  The list order stands for the map iteration order. -/
def appendNewEnvAux : EnvMap → EnvMap → EnvMap → EnvMap × EnvMap
  | [], tMap, added => (tMap, added)
  | (k, v) :: rest, tMap, added =>
    if (lookupEnv tMap k).isSome then appendNewEnvAux rest tMap added
    else appendNewEnvAux rest (tMap ++ [(k, v)]) (added ++ [(k, v)])

/-- Go `appendNewEnv`: the merged map and the added subset.  The flat
variant returns only the merged map; it is the first component. -/
def appendNewEnv (sMap tMap : EnvMap) : EnvMap × EnvMap :=
  appendNewEnvAux sMap tMap []

/-- Go `prefix`: `strings.Split(key, "_")[0]`, the part of the key before
its first underscore (the whole key when it has none). -/
def prefixKey (k : Str) : Str :=
  k.takeWhile (· ≠ '_')

/-- Go `sort.Strings` over the map's keys, ascending lexicographic
(byte/codepoint) order. -/
def sortKeys (env : EnvMap) : List Str :=
  List.insertionSort (· ≤ ·) (keysOf env)

/-- One output line `key=value\n` (Go format string `"%s=%s\n"`). -/
def lineOf (env : EnvMap) (k : Str) : Str :=
  k ++ '=' :: lookupD env k ++ ['\n']

/-- Go `writeEnv` of the flat variant: one `key=value\n` line per key, keys
sorted ascending, concatenated in order. -/
def writeEnvFlat (env : EnvMap) : Str :=
  ((sortKeys env).map (lineOf env)).flatten

/-- The loop of the grouped variant's `writeEnv`: `group` is the tracker
(initially empty) and `first` is `i == 0`.  On a change of group the header
is `# <group>\n` for the first key and `\n# <group>\n` afterwards. -/
def writeGroupedAux (env : EnvMap) : List Str → Str → Bool → Str
  | [], _, _ => []
  | k :: ks, group, first =>
    let g := prefixKey k
    let header : Str :=
      if g ≠ group then
        if first then '#' :: ' ' :: g ++ ['\n'] else '\n' :: '#' :: ' ' :: g ++ ['\n']
      else []
    let group' := if g ≠ group then g else group
    header ++ lineOf env k ++ writeGroupedAux env ks group' false

/-- Go `writeEnv` of the grouped variant: sorted keys, with group headers
emitted by `writeGroupedAux`, buffered and written as one string. -/
def writeEnvGrouped (env : EnvMap) : Str :=
  writeGroupedAux env (sortKeys env) [] true

/-- Which of the two source files of the repository is running: `envsync.go`
(flat writer, backup-copy error checked) or the second file (grouped
writer, backup-copy error ignored, added keys printed). -/
inductive Variant
  | flat
  | grouped
deriving DecidableEq

/-- True exactly on the `envsync.go` variant. -/
def Variant.isFlat : Variant → Bool
  | .flat => true
  | .grouped => false

/-- Writer of the running variant. -/
def writeEnvV : Variant → EnvMap → Str
  | .flat, env => writeEnvFlat env
  | .grouped, env => writeEnvGrouped env

/-- Contents of the three paths `Sync` touches: the source path, the target
path and the backup path `<target>.bak` (`none` = file absent). -/
structure World where
  source : Option Str
  target : Option Str
  backup : Option Str
deriving DecidableEq

/-- Fault injection for the two fallible effects `Sync` meets after both
parses: the `cp target backup` step and the final write of the target. -/
structure Faults where
  backupCpFails : Bool
  writeFails : Bool
deriving DecidableEq

/-- Errors `Sync` can return, one per `return` site; the parse errors carry
the offending line, as the Go error message does. -/
inductive SyncError
  | openSource
  | openTarget
  | parseSource (line : Str)
  | parseTarget (line : Str)
  | backupCp
  | write
deriving DecidableEq

/-- The deferred cleanup of Go `Sync`.  The Go code reads
`defer func(err error) { if err != nil { cp backup target }; rm backup }(err)`:
the argument `err` is evaluated when the `defer` statement runs, while the
local `err` is still `nil`, so inside the deferred function `err` is always
`nil` and the restore branch never executes; only the backup removal
(`rm -f`, which also succeeds on an absent file) takes effect. -/
def deferredCleanup (w : World) : World :=
  { w with backup := none }

/-- Go `Sync` of either variant, step by step: open source, open target
(`O_APPEND|O_RDWR`, never creating it), parse both, copy the target to the
backup path (the flat variant returns the copy error, the grouped variant
ignores it), merge via `appendNewEnv`, truncate the target to empty, write
the merged map (a write fault fails the single buffered `WriteString` of
the grouped variant, or the first `WriteString` of the flat loop, leaving
the target truncated), and finally run the deferred cleanup on every path.
The grouped variant's `print` of the added subset is a pure stdout effect
and does not touch the state. -/
def syncGo (v : Variant) (f : Faults) (w : World) : World × Option SyncError :=
  match w.source with
  | none => (deferredCleanup w, some .openSource)
  | some src =>
    match w.target with
    | none => (deferredCleanup w, some .openTarget)
    | some tgt =>
      match (mapEnv src).2 with
      | some l => (deferredCleanup w, some (.parseSource l))
      | none =>
        match (mapEnv tgt).2 with
        | some l => (deferredCleanup w, some (.parseTarget l))
        | none =>
          if f.backupCpFails && v.isFlat then (deferredCleanup w, some .backupCp)
          else
            let w1 := if f.backupCpFails then w else { w with backup := some tgt }
            let merged := (appendNewEnv (mapEnv src).1 (mapEnv tgt).1).1
            let w2 := { w1 with target := some [] }
            if f.writeFails then (deferredCleanup w2, some .write)
            else (deferredCleanup { w2 with target := some (writeEnvV v merged) }, none)

/-- A line that makes `mapEnv` fail: non-empty, not a comment, and without
any `=` character. -/
def BadLine (l : Str) : Prop :=
  l ≠ [] ∧ l.head? ≠ some '#' ∧ '=' ∉ l

instance (l : Str) : Decidable (BadLine l) := by
  unfold BadLine; infer_instance

/-- A file content containing a line on which `mapEnv` fails. -/
def hasBadLine (s : Str) : Prop :=
  ∃ l ∈ scanLines s, BadLine l

instance (s : Str) : Decidable (hasBadLine s) := by
  unfold hasBadLine; infer_instance

/-- Value of the last non-skipped `key=value` line for key `k`, scanning a
list of lines; the specification-level description of last-write-wins. -/
def lastVal (k : Str) : List Str → Option Str
  | [] => none
  | l :: ls =>
    match lastVal k ls with
    | some v => some v
    | none =>
      if l = [] then none
      else if l.head? = some '#' then none
      else
        match splitLineEq l with
        | none => none
        | some (k', v) => if k' = k then some v else none

/-- Binding fit for a faithful `writeEnv`/`mapEnv` round trip: the key has
no `=` and no newline and does not start with `#`, and the value has no
newline. -/
def GoodPair (p : Str × Str) : Prop :=
  '=' ∉ p.1 ∧ '\n' ∉ p.1 ∧ p.1.head? ≠ some '#' ∧ '\n' ∉ p.2

instance (p : Str × Str) : Decidable (GoodPair p) := by
  unfold GoodPair; infer_instance

/-- Mapping all of whose bindings are round-trip fit. -/
def GoodEnv (env : EnvMap) : Prop :=
  ∀ p ∈ env, GoodPair p

instance (env : EnvMap) : Decidable (GoodEnv env) := by
  unfold GoodEnv; infer_instance

/-- Modelled from the spec: the grouped writer as §4.3 and the C7 claim
describe it — the very first group always gets a `# <group>\n` header with
no leading blank line, and every later change of group label gets a blank
line followed by its header.  `prev` is the label of the previous key's
group, absent at the first key. -/
def writeGroupedSpecAux (env : EnvMap) : List Str → Option Str → Str
  | [], _ => []
  | k :: ks, prev =>
    let g := prefixKey k
    let header : Str :=
      match prev with
      | none => '#' :: ' ' :: g ++ ['\n']
      | some p => if g ≠ p then '\n' :: '#' :: ' ' :: g ++ ['\n'] else []
    header ++ lineOf env k ++ writeGroupedSpecAux env ks (some g)

/-- Modelled from the spec: grouped writer over the sorted keys. -/
def writeEnvGroupedSpec (env : EnvMap) : Str :=
  writeGroupedSpecAux env (sortKeys env) none

/-! ## Basic lemmas on the mapping operations -/

theorem lookupEnv_insertEnv (env : EnvMap) (k v q) :
    lookupEnv (insertEnv env k v) q = if q = k then some v else lookupEnv env q := by
  induction env with
  | nil =>
    by_cases h : q = k
    · simp [insertEnv, lookupEnv, h]
    · have h2 : ¬ k = q := fun h' => h h'.symm
      simp [insertEnv, lookupEnv, h, h2]
  | cons p rest ih =>
    obtain ⟨k', v'⟩ := p
    by_cases hk : k' = k
    · subst hk
      by_cases hq : q = k'
      · subst hq; simp [insertEnv, lookupEnv]
      · have h2 : ¬ k' = q := fun h => hq h.symm
        simp [insertEnv, lookupEnv, hq, h2]
    · by_cases hq : k' = q
      · have h2 : ¬ q = k := fun h => hk (hq.trans h)
        simp [insertEnv, lookupEnv, hk, hq, h2]
      · simp [insertEnv, lookupEnv, hk, hq, ih]

theorem mem_keysOf_iff_lookup (env : EnvMap) (q : Str) :
    q ∈ keysOf env ↔ (lookupEnv env q).isSome := by
  induction env with
  | nil => simp [keysOf, lookupEnv]
  | cons p rest ih =>
    obtain ⟨k', v'⟩ := p
    by_cases h : k' = q
    · subst h; simp [keysOf, lookupEnv]
    · simpa [keysOf, lookupEnv, h, Ne.symm h] using ih

theorem lookupEnv_mem (env : EnvMap) (q v) (h : lookupEnv env q = some v) :
    (q, v) ∈ env := by
  induction env with
  | nil => simp [lookupEnv] at h
  | cons p rest ih =>
    obtain ⟨k', v'⟩ := p
    by_cases hk : k' = q
    · subst hk
      simp [lookupEnv] at h
      simp [h]
    · simp [lookupEnv, hk] at h
      exact List.mem_cons_of_mem _ (ih h)

theorem mem_lookup_isSome (env : EnvMap) (p) (h : p ∈ env) :
    (lookupEnv env p.1).isSome := by
  induction env with
  | nil => simp at h
  | cons p' rest ih =>
    obtain ⟨k', v'⟩ := p'
    rcases List.mem_cons.1 h with h | h
    · subst h; simp [lookupEnv]
    · by_cases hk : k' = p.1
      · simp [lookupEnv, hk]
      · simpa [lookupEnv, hk] using ih h

theorem keysOf_insertEnv_found (env : EnvMap) (k v) (h : (lookupEnv env k).isSome) :
    keysOf (insertEnv env k v) = keysOf env := by
  induction env with
  | nil => simp [lookupEnv] at h
  | cons p rest ih =>
    obtain ⟨k', v'⟩ := p
    by_cases hk : k' = k
    · subst hk; simp [insertEnv, keysOf]
    · simp [lookupEnv, hk] at h
      simpa [insertEnv, keysOf, hk] using ih h

theorem keysOf_insertEnv_fresh (env : EnvMap) (k v) (h : lookupEnv env k = none) :
    keysOf (insertEnv env k v) = keysOf env ++ [k] := by
  induction env with
  | nil => simp [insertEnv, keysOf]
  | cons p rest ih =>
    obtain ⟨k', v'⟩ := p
    by_cases hk : k' = k
    · subst hk; simp [lookupEnv] at h
    · simp [lookupEnv, hk] at h
      simpa [insertEnv, keysOf, hk] using ih h

theorem nodup_insertEnv (env : EnvMap) (k v) (h : (keysOf env).Nodup) :
    (keysOf (insertEnv env k v)).Nodup := by
  cases hl : lookupEnv env k with
  | none =>
    rw [keysOf_insertEnv_fresh env k v hl]
    have : k ∉ keysOf env := by
      rw [mem_keysOf_iff_lookup, hl]; simp
    simpa [List.nodup_append] using ⟨h, this⟩
  | some w =>
    rw [keysOf_insertEnv_found env k v (by simp [hl])]
    exact h

theorem goodEnv_insertEnv (env : EnvMap) (k v) (h : GoodEnv env) (hp : GoodPair (k, v)) :
    GoodEnv (insertEnv env k v) := by
  induction env with
  | nil => intro p hp'; simp [insertEnv] at hp'; simpa [hp']
  | cons p' rest ih =>
    obtain ⟨k', v'⟩ := p'
    have hres : GoodEnv rest := fun p hp' => h p (List.mem_cons_of_mem _ hp')
    by_cases hk : k' = k
    · subst hk
      intro p hp'
      simp [insertEnv] at hp'
      rcases hp' with hp' | hp'
      · simpa [hp']
      · exact hres p hp'
    · intro p hp'
      simp only [insertEnv, if_neg hk] at hp'
      rcases List.mem_cons.1 hp' with hp' | hp'
      · exact h p (hp' ▸ List.mem_cons_self _ _)
      · exact ih hres p hp'

/-! ## Lemmas on line splitting and line scanning -/

theorem splitLineEq_append (k v : Str) (h : '=' ∉ k) :
    splitLineEq (k ++ '=' :: v) = some (k, v) := by
  induction k with
  | nil => simp [splitLineEq]
  | cons c cs ih =>
    have hc : c ≠ '=' := fun hc => h (hc ▸ List.mem_cons_self _ _)
    have hcs : '=' ∉ cs := fun hm => h (List.mem_cons_of_mem _ hm)
    simp [splitLineEq, hc, ih hcs]

theorem splitLineEq_none_iff (l : Str) : splitLineEq l = none ↔ '=' ∉ l := by
  induction l with
  | nil => simp [splitLineEq]
  | cons c cs ih =>
    by_cases hc : c = '='
    · subst hc; simp [splitLineEq]
    · cases hs : splitLineEq cs with
      | none => simp [splitLineEq, hc, hs, ih.1 hs, Ne.symm hc]
      | some p =>
        obtain ⟨k, v⟩ := p
        have : '=' ∈ cs := by
          by_contra hmem
          rw [ih.2 hmem] at hs
          exact Option.noConfusion hs
        simp [splitLineEq, hc, hs, this]

theorem splitLineEq_some (l k v : Str) (h : splitLineEq l = some (k, v)) :
    '=' ∉ k ∧ l = k ++ '=' :: v := by
  induction l generalizing k v with
  | nil => simp [splitLineEq] at h
  | cons c cs ih =>
    by_cases hc : c = '='
    · subst hc
      simp [splitLineEq] at h
      simp [h]
    · simp only [splitLineEq, if_neg hc] at h
      cases hs : splitLineEq cs with
      | none => rw [hs] at h; exact Option.noConfusion h
      | some p =>
        obtain ⟨k', v'⟩ := p
        rw [hs] at h
        simp at h
        obtain ⟨hk, hv⟩ := h
        obtain ⟨hmem, heq⟩ := ih k' v' hs
        subst hk; subst hv
        constructor
        · intro hm
          rcases List.mem_cons.1 hm with hm | hm
          · exact hc hm.symm
          · exact hmem hm
        · simp [heq]

theorem splitLineEq_takeWhile (l : Str) (h : '=' ∈ l) :
    splitLineEq l = some (l.takeWhile (· ≠ '='), (l.dropWhile (· ≠ '=')).tail) := by
  induction l with
  | nil => simp at h
  | cons c cs ih =>
    by_cases hc : c = '='
    · subst hc; simp [splitLineEq, List.takeWhile, List.dropWhile]
    · have hcs : '=' ∈ cs := by
        rcases List.mem_cons.1 h with h' | h'
        · exact absurd h'.symm hc
        · exact h'
      simp [splitLineEq, hc, ih hcs, List.takeWhile, List.dropWhile]

theorem scanLines_cons_line (l s : Str) (h : '\n' ∉ l) :
    scanLines (l ++ '\n' :: s) = l :: scanLines s := by
  induction l with
  | nil => simp [scanLines]
  | cons c cs ih =>
    have hc : c ≠ '\n' := fun hc => h (hc ▸ List.mem_cons_self _ _)
    have hcs : '\n' ∉ cs := fun hm => h (List.mem_cons_of_mem _ hm)
    simp [scanLines, hc, ih hcs]

theorem scanLines_no_newline (s : Str) : ∀ l ∈ scanLines s, '\n' ∉ l := by
  induction s with
  | nil => simp [scanLines]
  | cons c cs ih =>
    by_cases hc : c = '\n'
    · subst hc
      simp only [scanLines, if_pos rfl]
      intro l hl
      rcases List.mem_cons.1 hl with hl | hl
      · subst hl; simp
      · exact ih l hl
    · simp only [scanLines, if_neg hc]
      cases hs : scanLines cs with
      | nil =>
        intro l hl
        simp at hl
        subst hl
        intro hm
        simp at hm
        exact hc hm.symm
      | cons l0 ls =>
        intro l hl
        rcases List.mem_cons.1 hl with hl | hl
        · subst hl
          intro hm
          rcases List.mem_cons.1 hm with hm | hm
          · exact hc hm.symm
          · exact ih l0 (hs ▸ List.mem_cons_self _ _) hm
        · exact ih l (hs ▸ List.mem_cons_of_mem _ hl)

/-! ## Lemmas on the parser loop -/

theorem mapEnvLines_skip_empty (ls : List Str) (acc : EnvMap) :
    mapEnvLines ([] :: ls) acc = mapEnvLines ls acc := by
  simp [mapEnvLines]

theorem mapEnvLines_skip_comment (l : Str) (ls : List Str) (acc : EnvMap)
    (h : l.head? = some '#') :
    mapEnvLines (l :: ls) acc = mapEnvLines ls acc := by
  have hne : l ≠ [] := by
    intro he; rw [he] at h; exact Option.noConfusion h
  simp [mapEnvLines, hne, h]

theorem mapEnvLines_step (l k v : Str) (ls : List Str) (acc : EnvMap)
    (h1 : l ≠ []) (h2 : l.head? ≠ some '#') (h3 : splitLineEq l = some (k, v)) :
    mapEnvLines (l :: ls) acc = mapEnvLines ls (insertEnv acc k v) := by
  simp [mapEnvLines, h1, h2, h3]

theorem mapEnvLines_bad (l : Str) (ls : List Str) (acc : EnvMap) (h : BadLine l) :
    mapEnvLines (l :: ls) acc = (acc, some l) := by
  obtain ⟨h1, h2, h3⟩ := h
  simp [mapEnvLines, h1, h2, (splitLineEq_none_iff l).2 h3]

theorem mapEnvLines_error_of_bad (ls : List Str) (acc : EnvMap)
    (h : ∃ l ∈ ls, BadLine l) : (mapEnvLines ls acc).2.isSome := by
  induction ls generalizing acc with
  | nil => simp at h
  | cons l ls ih =>
    by_cases hb : BadLine l
    · rw [mapEnvLines_bad l ls acc hb]; simp
    · obtain ⟨l', hl', hbad⟩ := h
      have hl'' : l' ∈ ls := by
        rcases List.mem_cons.1 hl' with h' | h'
        · exact absurd (h' ▸ hbad) hb
        · exact h'
      by_cases he : l = []
      · rw [he, mapEnvLines_skip_empty]; exact ih acc ⟨l', hl'', hbad⟩
      · by_cases hc : l.head? = some '#'
        · rw [mapEnvLines_skip_comment l ls acc hc]; exact ih acc ⟨l', hl'', hbad⟩
        · have hmem : '=' ∈ l := by
            by_contra hne
            exact hb ⟨he, hc, hne⟩
          cases hs : splitLineEq l with
          | none => exact absurd ((splitLineEq_none_iff l).1 hs) (by simpa using hmem)
          | some p =>
            rw [mapEnvLines_step l p.1 p.2 ls acc he hc (by rw [hs])]
            exact ih _ ⟨l', hl'', hbad⟩

theorem mapEnvLines_none_of_good (ls : List Str) (acc : EnvMap)
    (h : ∀ l ∈ ls, ¬ BadLine l) : (mapEnvLines ls acc).2 = none := by
  induction ls generalizing acc with
  | nil => simp [mapEnvLines]
  | cons l ls ih =>
    have hrest : ∀ l' ∈ ls, ¬ BadLine l' := fun l' hl' => h l' (List.mem_cons_of_mem _ hl')
    by_cases he : l = []
    · rw [he, mapEnvLines_skip_empty]; exact ih acc hrest
    · by_cases hc : l.head? = some '#'
      · rw [mapEnvLines_skip_comment l ls acc hc]; exact ih acc hrest
      · have hmem : '=' ∈ l := by
          by_contra hne
          exact h l (List.mem_cons_self _ _) ⟨he, hc, hne⟩
        cases hs : splitLineEq l with
        | none => exact absurd ((splitLineEq_none_iff l).1 hs) (by simpa using hmem)
        | some p =>
          rw [mapEnvLines_step l p.1 p.2 ls acc he hc (by rw [hs])]
          exact ih _ hrest

theorem mapEnvLines_nodup (ls : List Str) (acc : EnvMap) (h : (keysOf acc).Nodup) :
    (keysOf (mapEnvLines ls acc).1).Nodup := by
  induction ls generalizing acc with
  | nil => simpa [mapEnvLines]
  | cons l ls ih =>
    by_cases he : l = []
    · rw [he, mapEnvLines_skip_empty]; exact ih acc h
    · by_cases hc : l.head? = some '#'
      · rw [mapEnvLines_skip_comment l ls acc hc]; exact ih acc h
      · cases hs : splitLineEq l with
        | none => simp [mapEnvLines, he, hc, hs, h]
        | some p =>
          rw [mapEnvLines_step l p.1 p.2 ls acc he hc (by rw [hs])]
          exact ih _ (nodup_insertEnv acc p.1 p.2 h)

theorem goodPair_of_line (l k v : Str) (hs : splitLineEq l = some (k, v))
    (hnl : '\n' ∉ l) (hhd : l.head? ≠ some '#') : GoodPair (k, v) := by
  obtain ⟨hmem, heq⟩ := splitLineEq_some l k v hs
  subst heq
  refine ⟨hmem, ?_, ?_, ?_⟩
  · exact fun hm => hnl (List.mem_append_left _ hm)
  · cases k with
    | nil => simp
    | cons c cs => simpa using hhd
  · exact fun hm => hnl (List.mem_append_right _ (List.mem_cons_of_mem _ hm))

theorem mapEnvLines_good (ls : List Str) (acc : EnvMap)
    (hls : ∀ l ∈ ls, '\n' ∉ l) (h : GoodEnv acc) : GoodEnv (mapEnvLines ls acc).1 := by
  induction ls generalizing acc with
  | nil => simpa [mapEnvLines]
  | cons l ls ih =>
    have hrest : ∀ l' ∈ ls, '\n' ∉ l' := fun l' hl' => hls l' (List.mem_cons_of_mem _ hl')
    by_cases he : l = []
    · rw [he, mapEnvLines_skip_empty]; exact ih acc hrest h
    · by_cases hc : l.head? = some '#'
      · rw [mapEnvLines_skip_comment l ls acc hc]; exact ih acc hrest h
      · cases hs : splitLineEq l with
        | none => simp [mapEnvLines, he, hc, hs, h]
        | some p =>
          rw [mapEnvLines_step l p.1 p.2 ls acc he hc (by rw [hs])]
          exact ih _ hrest
            (goodEnv_insertEnv acc p.1 p.2 h
              (goodPair_of_line l p.1 p.2 (by rw [hs]) (hls l (List.mem_cons_self _ _)) hc))

theorem lookupEnv_mapEnvLines (ls : List Str) (acc : EnvMap) (q : Str)
    (h : ∀ l ∈ ls, ¬ BadLine l) :
    lookupEnv (mapEnvLines ls acc).1 q =
      match lastVal q ls with
      | some v => some v
      | none => lookupEnv acc q := by
  induction ls generalizing acc with
  | nil => simp [mapEnvLines, lastVal]
  | cons l ls ih =>
    have hrest : ∀ l' ∈ ls, ¬ BadLine l' := fun l' hl' => h l' (List.mem_cons_of_mem _ hl')
    by_cases he : l = []
    · rw [he, mapEnvLines_skip_empty, ih acc hrest]
      cases hlv : lastVal q ls <;> simp [lastVal, hlv]
    · by_cases hc : l.head? = some '#'
      · rw [mapEnvLines_skip_comment l ls acc hc, ih acc hrest]
        cases hlv : lastVal q ls <;> simp [lastVal, hlv, hc, he]
      · have hmem : '=' ∈ l := by
          by_contra hne
          exact h l (List.mem_cons_self _ _) ⟨he, hc, hne⟩
        cases hs : splitLineEq l with
        | none => exact absurd ((splitLineEq_none_iff l).1 hs) (by simpa using hmem)
        | some p =>
          obtain ⟨k, v⟩ := p
          rw [mapEnvLines_step l k v ls acc he hc hs, ih _ hrest]
          cases hlv : lastVal q ls with
          | some w => simp [lastVal, hlv]
          | none =>
            by_cases hk : k = q
            · subst hk
              simp [lastVal, hlv, he, hc, hs, lookupEnv_insertEnv]
            · have hq : ¬ q = k := fun h' => hk h'.symm
              simp [lastVal, hlv, he, hc, hs, hk, lookupEnv_insertEnv, hq]

/-! ## Lemmas on the differ and on sorted writing -/

theorem lookupEnv_append_single (t : EnvMap) (k v q) :
    lookupEnv (t ++ [(k, v)]) q =
      match lookupEnv t q with
      | some w => some w
      | none => if k = q then some v else none := by
  induction t with
  | nil => simp [lookupEnv]
  | cons p rest ih =>
    obtain ⟨k', v'⟩ := p
    by_cases hk : k' = q
    · simp [lookupEnv, hk]
    · simp [lookupEnv, hk, ih]

theorem appendNewEnvAux_fst_lookup (s : EnvMap) : ∀ (t a : EnvMap) (q : Str),
    lookupEnv (appendNewEnvAux s t a).1 q =
      match lookupEnv t q with
      | some w => some w
      | none => lookupEnv s q := by
  induction s with
  | nil =>
    intro t a q
    cases h : lookupEnv t q <;> simp [appendNewEnvAux, lookupEnv, h]
  | cons p s' ih =>
    intro t a q
    obtain ⟨k, v⟩ := p
    by_cases hf : (lookupEnv t k).isSome
    · rw [show appendNewEnvAux ((k, v) :: s') t a = appendNewEnvAux s' t a by
        simp [appendNewEnvAux, hf], ih t a q]
      cases h : lookupEnv t q with
      | some w => simp
      | none =>
        by_cases hk : k = q
        · subst hk; rw [h] at hf; simp at hf
        · simp [lookupEnv, hk]
    · have hn : lookupEnv t k = none := by
        cases h : lookupEnv t k
        · rfl
        · rw [h] at hf; simp at hf
      rw [show appendNewEnvAux ((k, v) :: s') t a
            = appendNewEnvAux s' (t ++ [(k, v)]) (a ++ [(k, v)]) by
          simp [appendNewEnvAux, hn], ih _ _ q, lookupEnv_append_single t k v q]
      cases h : lookupEnv t q with
      | some w => simp
      | none =>
        by_cases hk : k = q
        · simp [lookupEnv, hk]
        · simp [lookupEnv, hk]

theorem appendNewEnvAux_all_found (s : EnvMap) : ∀ (t a : EnvMap),
    (∀ p ∈ s, (lookupEnv t p.1).isSome) → appendNewEnvAux s t a = (t, a) := by
  induction s with
  | nil => intro t a _; rfl
  | cons p s' ih =>
    intro t a h
    obtain ⟨k, v⟩ := p
    have hf : (lookupEnv t k).isSome := h (k, v) (List.mem_cons_self _ _)
    rw [show appendNewEnvAux ((k, v) :: s') t a = appendNewEnvAux s' t a by
      simp [appendNewEnvAux, hf]]
    exact ih t a fun p hp => h p (List.mem_cons_of_mem _ hp)

theorem appendNewEnvAux_nodup (s : EnvMap) : ∀ (t a : EnvMap),
    (keysOf t).Nodup → (keysOf (appendNewEnvAux s t a).1).Nodup := by
  induction s with
  | nil => intro t a h; exact h
  | cons p s' ih =>
    intro t a h
    obtain ⟨k, v⟩ := p
    by_cases hf : (lookupEnv t k).isSome
    · rw [show appendNewEnvAux ((k, v) :: s') t a = appendNewEnvAux s' t a by
        simp [appendNewEnvAux, hf]]
      exact ih t a h
    · have hn : lookupEnv t k = none := by
        cases h' : lookupEnv t k
        · rfl
        · rw [h'] at hf; simp at hf
      rw [show appendNewEnvAux ((k, v) :: s') t a
            = appendNewEnvAux s' (t ++ [(k, v)]) (a ++ [(k, v)]) by
          simp [appendNewEnvAux, hn]]
      refine ih _ _ ?_
      have hkm : k ∉ keysOf t := by
        rw [mem_keysOf_iff_lookup, hn]; simp
      have : keysOf (t ++ [(k, v)]) = keysOf t ++ [k] := by simp [keysOf]
      rw [this]
      simpa [List.nodup_append] using ⟨h, hkm⟩

theorem appendNewEnvAux_good (s : EnvMap) : ∀ (t a : EnvMap),
    GoodEnv t → GoodEnv s → GoodEnv (appendNewEnvAux s t a).1 := by
  induction s with
  | nil => intro t a ht _; exact ht
  | cons p s' ih =>
    intro t a ht hs
    obtain ⟨k, v⟩ := p
    have hs' : GoodEnv s' := fun p hp => hs p (List.mem_cons_of_mem _ hp)
    by_cases hf : (lookupEnv t k).isSome
    · rw [show appendNewEnvAux ((k, v) :: s') t a = appendNewEnvAux s' t a by
        simp [appendNewEnvAux, hf]]
      exact ih t a ht hs'
    · have hn : lookupEnv t k = none := by
        cases h' : lookupEnv t k
        · rfl
        · rw [h'] at hf; simp at hf
      rw [show appendNewEnvAux ((k, v) :: s') t a
            = appendNewEnvAux s' (t ++ [(k, v)]) (a ++ [(k, v)]) by
          simp [appendNewEnvAux, hn]]
      refine ih _ _ ?_ hs'
      intro p hp
      rcases List.mem_append.1 hp with hp | hp
      · exact ht p hp
      · simp at hp
        subst hp
        exact hs (k, v) (List.mem_cons_self _ _)

theorem appendNewEnv_fst_lookup (s t : EnvMap) (q : Str) :
    lookupEnv (appendNewEnv s t).1 q =
      match lookupEnv t q with
      | some w => some w
      | none => lookupEnv s q :=
  appendNewEnvAux_fst_lookup s t [] q

theorem appendNewEnv_all_found (s t : EnvMap)
    (h : ∀ p ∈ s, (lookupEnv t p.1).isSome) : (appendNewEnv s t).1 = t := by
  unfold appendNewEnv
  rw [appendNewEnvAux_all_found s t [] h]

theorem sortKeys_perm (env : EnvMap) : List.Perm (sortKeys env) (keysOf env) :=
  List.perm_insertionSort _ _

theorem sortKeys_sorted (env : EnvMap) : List.Sorted (· ≤ ·) (sortKeys env) :=
  List.sorted_insertionSort _ _

theorem sortKeys_congr (env₁ env₂ : EnvMap)
    (h1 : (keysOf env₁).Nodup) (h2 : (keysOf env₂).Nodup)
    (h : ∀ q, q ∈ keysOf env₁ ↔ q ∈ keysOf env₂) : sortKeys env₁ = sortKeys env₂ := by
  have hp : List.Perm (keysOf env₁) (keysOf env₂) :=
    (List.perm_ext_iff_of_nodup h1 h2).2 h
  exact List.eq_of_perm_of_sorted
    ((sortKeys_perm env₁).trans (hp.trans (sortKeys_perm env₂).symm))
    (sortKeys_sorted env₁) (sortKeys_sorted env₂)

theorem writeGroupedAux_congr (env₁ env₂ : EnvMap) : ∀ (ks : List Str) (g : Str) (b : Bool),
    (∀ k ∈ ks, lookupD env₁ k = lookupD env₂ k) →
    writeGroupedAux env₁ ks g b = writeGroupedAux env₂ ks g b := by
  intro ks
  induction ks with
  | nil => intro g b _; rfl
  | cons k ks ih =>
    intro g b h
    have hk : lookupD env₁ k = lookupD env₂ k := h k (List.mem_cons_self _ _)
    simp only [writeGroupedAux, lineOf, hk]
    rw [ih _ false fun k' hk' => h k' (List.mem_cons_of_mem _ hk')]

theorem writeEnvV_congr (v : Variant) (env₁ env₂ : EnvMap)
    (h1 : (keysOf env₁).Nodup) (h2 : (keysOf env₂).Nodup)
    (h : ∀ q, lookupEnv env₁ q = lookupEnv env₂ q) :
    writeEnvV v env₁ = writeEnvV v env₂ := by
  have hmem : ∀ q, q ∈ keysOf env₁ ↔ q ∈ keysOf env₂ := by
    intro q
    rw [mem_keysOf_iff_lookup, mem_keysOf_iff_lookup, h q]
  have hsort : sortKeys env₁ = sortKeys env₂ := sortKeys_congr env₁ env₂ h1 h2 hmem
  have hline : ∀ k, lineOf env₁ k = lineOf env₂ k := by
    intro k
    simp [lineOf, lookupD, h k]
  cases v with
  | flat =>
    simp only [writeEnvV, writeEnvFlat, hsort]
    exact congrArg _ (List.map_congr_left fun k _ => hline k)
  | grouped =>
    simp only [writeEnvV, writeEnvGrouped, hsort]
    exact writeGroupedAux_congr env₁ env₂ _ _ _ fun k _ => by
      simp [lookupD, h k]

/-! ## Round trip: parsing the writers' output -/

theorem goodPair_line_ne_nil (k w : Str) : (k ++ '=' :: w) ≠ [] := by
  cases k <;> simp

theorem goodPair_line_head (k w : Str) (h : k.head? ≠ some '#') :
    (k ++ '=' :: w).head? ≠ some '#' := by
  cases k with
  | nil => simp
  | cons c cs => simpa using h

theorem goodPair_line_no_newline (k w : Str) (hk : '\n' ∉ k) (hw : '\n' ∉ w) :
    '\n' ∉ k ++ '=' :: w := by
  intro hm
  rcases List.mem_append.1 hm with hm | hm
  · exact hk hm
  · rcases List.mem_cons.1 hm with hm | hm
    · exact absurd hm (by decide)
    · exact hw hm

theorem mapEnvLines_kv_line (env : EnvMap) (k : Str) (L : List Str) (acc : EnvMap)
    (h : GoodPair (k, lookupD env k)) :
    mapEnvLines ((k ++ '=' :: lookupD env k) :: L) acc
      = mapEnvLines L (insertEnv acc k (lookupD env k)) := by
  obtain ⟨hkeq, _, hkhd, _⟩ := h
  exact mapEnvLines_step _ k (lookupD env k) L acc (goodPair_line_ne_nil _ _)
    (goodPair_line_head _ _ hkhd) (splitLineEq_append _ _ hkeq)

theorem lookup_foldInsert (env : EnvMap) : ∀ (ks : List Str) (acc : EnvMap) (q : Str),
    lookupEnv (ks.foldl (fun a k => insertEnv a k (lookupD env k)) acc) q
      = if q ∈ ks then some (lookupD env q) else lookupEnv acc q := by
  intro ks
  induction ks with
  | nil => intro acc q; simp
  | cons k ks ih =>
    intro acc q
    rw [List.foldl_cons, ih]
    by_cases hqs : q ∈ ks
    · simp [hqs]
    · by_cases hqk : q = k
      · subst hqk; simp [hqs, lookupEnv_insertEnv]
      · simp [hqs, hqk, lookupEnv_insertEnv]

theorem mapEnv_writeFlatLines (env : EnvMap) : ∀ (ks : List Str) (acc : EnvMap),
    (∀ k ∈ ks, GoodPair (k, lookupD env k)) →
    mapEnvLines (scanLines ((ks.map (lineOf env)).flatten)) acc
      = (ks.foldl (fun a k => insertEnv a k (lookupD env k)) acc, none) := by
  intro ks
  induction ks with
  | nil => intro acc _; simp [scanLines, mapEnvLines]
  | cons k ks ih =>
    intro acc h
    obtain ⟨hkeq, hknl, hkhd, hvnl⟩ := h k (List.mem_cons_self _ _)
    have hdec : (lineOf env k) ++ (ks.map (lineOf env)).flatten
        = (k ++ '=' :: lookupD env k) ++ '\n' :: (ks.map (lineOf env)).flatten := by
      simp [lineOf]
    rw [List.map_cons, List.flatten_cons, hdec,
      scanLines_cons_line _ _ (goodPair_line_no_newline _ _ hknl hvnl),
      mapEnvLines_kv_line env k _ acc (h k (List.mem_cons_self _ _)),
      ih _ fun k' hk' => h k' (List.mem_cons_of_mem _ hk')]
    simp

theorem writeGroupedAux_cons_same (env : EnvMap) (k : Str) (ks : List Str) (g : Str)
    (b : Bool) (hg : prefixKey k = g) :
    writeGroupedAux env (k :: ks) g b = lineOf env k ++ writeGroupedAux env ks g false := by
  simp [writeGroupedAux, hg]

theorem writeGroupedAux_cons_change_first (env : EnvMap) (k : Str) (ks : List Str)
    (g : Str) (hgr : prefixKey k ≠ g) :
    writeGroupedAux env (k :: ks) g true
      = ('#' :: ' ' :: prefixKey k ++ ['\n'])
        ++ (lineOf env k ++ writeGroupedAux env ks (prefixKey k) false) := by
  simp [writeGroupedAux, hgr]

theorem writeGroupedAux_cons_change_rest (env : EnvMap) (k : Str) (ks : List Str)
    (g : Str) (hgr : prefixKey k ≠ g) :
    writeGroupedAux env (k :: ks) g false
      = ('\n' :: '#' :: ' ' :: prefixKey k ++ ['\n'])
        ++ (lineOf env k ++ writeGroupedAux env ks (prefixKey k) false) := by
  simp [writeGroupedAux, hgr]

theorem scanLines_newline_cons (s : Str) : scanLines ('\n' :: s) = [] :: scanLines s := by
  simp [scanLines]

theorem mapEnv_writeGroupedAux (env : EnvMap) : ∀ (ks : List Str) (g : Str) (b : Bool)
    (acc : EnvMap), (∀ k ∈ ks, GoodPair (k, lookupD env k)) →
    mapEnvLines (scanLines (writeGroupedAux env ks g b)) acc
      = (ks.foldl (fun a k => insertEnv a k (lookupD env k)) acc, none) := by
  intro ks
  induction ks with
  | nil => intro g b acc _; simp [writeGroupedAux, scanLines, mapEnvLines]
  | cons k ks ih =>
    intro g b acc h
    obtain ⟨hkeq, hknl, hkhd, hvnl⟩ := h k (List.mem_cons_self _ _)
    have hrest : ∀ k' ∈ ks, GoodPair (k', lookupD env k') :=
      fun k' hk' => h k' (List.mem_cons_of_mem _ hk')
    have hgnl : '\n' ∉ prefixKey k := fun hm => hknl (List.takeWhile_subset _ hm)
    have hdrnl : '\n' ∉ ('#' :: ' ' :: prefixKey k) := by
      intro hm
      rcases List.mem_cons.1 hm with hm | hm
      · exact absurd hm (by decide)
      · rcases List.mem_cons.1 hm with hm | hm
        · exact absurd hm (by decide)
        · exact hgnl hm
    have htail : ∀ g', mapEnvLines
        (scanLines (lineOf env k ++ writeGroupedAux env ks g' false)) acc
        = (ks.foldl (fun a k' => insertEnv a k' (lookupD env k'))
            (insertEnv acc k (lookupD env k)), none) := by
      intro g'
      have hdec : lineOf env k ++ writeGroupedAux env ks g' false
          = (k ++ '=' :: lookupD env k) ++ '\n' :: writeGroupedAux env ks g' false := by
        simp [lineOf]
      rw [hdec, scanLines_cons_line _ _ (goodPair_line_no_newline _ _ hknl hvnl),
        mapEnvLines_kv_line env k _ acc (h k (List.mem_cons_self _ _)),
        ih g' false _ hrest]
    by_cases hg : prefixKey k = g
    · rw [writeGroupedAux_cons_same env k ks g b hg, htail g]
      simp
    · cases b with
      | true =>
        have hdec2 : ('#' :: ' ' :: prefixKey k ++ ['\n'])
              ++ (lineOf env k ++ writeGroupedAux env ks (prefixKey k) false)
            = ('#' :: ' ' :: prefixKey k)
              ++ '\n' :: (lineOf env k ++ writeGroupedAux env ks (prefixKey k) false) := by
          simp
        rw [writeGroupedAux_cons_change_first env k ks g hg, hdec2,
          scanLines_cons_line _ _ hdrnl,
          mapEnvLines_skip_comment _ _ _ (by simp), htail (prefixKey k)]
        simp
      | false =>
        have hdec2 : ('\n' :: '#' :: ' ' :: prefixKey k ++ ['\n'])
              ++ (lineOf env k ++ writeGroupedAux env ks (prefixKey k) false)
            = '\n' :: (('#' :: ' ' :: prefixKey k)
              ++ '\n' :: (lineOf env k ++ writeGroupedAux env ks (prefixKey k) false)) := by
          simp
        rw [writeGroupedAux_cons_change_rest env k ks g hg, hdec2, scanLines_newline_cons,
          mapEnvLines_skip_empty, scanLines_cons_line _ _ hdrnl,
          mapEnvLines_skip_comment _ _ _ (by simp), htail (prefixKey k)]
        simp

theorem lookupD_eq_lookup (env : EnvMap) (q : Str) (h : q ∈ keysOf env) :
    lookupEnv env q = some (lookupD env q) := by
  have := (mem_keysOf_iff_lookup env q).1 h
  cases hl : lookupEnv env q with
  | none => rw [hl] at this; simp at this
  | some w => simp [lookupD, hl]

theorem goodPair_of_goodEnv (env : EnvMap) (q : Str) (hg : GoodEnv env)
    (h : q ∈ keysOf env) : GoodPair (q, lookupD env q) :=
  hg _ (lookupEnv_mem env q (lookupD env q) (lookupD_eq_lookup env q h))

theorem roundtrip_writeEnvV (v : Variant) (env : EnvMap) (hg : GoodEnv env) :
    (mapEnv (writeEnvV v env)).2 = none ∧
    ∀ q, lookupEnv (mapEnv (writeEnvV v env)).1 q = lookupEnv env q := by
  have hks : ∀ k ∈ sortKeys env, GoodPair (k, lookupD env k) := by
    intro k hk
    exact goodPair_of_goodEnv env k hg ((sortKeys_perm env).mem_iff.1 hk)
  have hmain : mapEnv (writeEnvV v env)
      = ((sortKeys env).foldl (fun a k => insertEnv a k (lookupD env k)) [], none) := by
    cases v with
    | flat => exact mapEnv_writeFlatLines env (sortKeys env) [] hks
    | grouped => exact mapEnv_writeGroupedAux env (sortKeys env) [] true [] hks
  constructor
  · rw [hmain]
  · intro q
    rw [hmain]
    simp only
    rw [lookup_foldInsert env (sortKeys env) [] q]
    by_cases hq : q ∈ keysOf env
    · rw [if_pos ((sortKeys_perm env).mem_iff.2 hq)]
      exact (lookupD_eq_lookup env q hq).symm
    · rw [if_neg fun hmem => hq ((sortKeys_perm env).mem_iff.1 hmem)]
      have := (mem_keysOf_iff_lookup env q).not.1 hq
      cases hl : lookupEnv env q with
      | none => simp [lookupEnv]
      | some w => rw [hl] at this; simp at this

/-! ## Lemmas on the Sync orchestration -/

theorem mapEnv_nodup (s : Str) : (keysOf (mapEnv s).1).Nodup :=
  mapEnvLines_nodup (scanLines s) [] (by simp [keysOf])

theorem mapEnv_goodEnv (s : Str) : GoodEnv (mapEnv s).1 :=
  mapEnvLines_good (scanLines s) [] (scanLines_no_newline s) (by intro p hp; simp at hp)

theorem syncGo_run (v : Variant) (f : Faults) (src tgt : Str) (b : Option Str)
    (h1 : (mapEnv src).2 = none) (h2 : (mapEnv tgt).2 = none)
    (h3 : f.writeFails = false) (h4 : (f.backupCpFails && v.isFlat) = false) :
    syncGo v f ⟨some src, some tgt, b⟩ =
      (⟨some src, some (writeEnvV v (appendNewEnv (mapEnv src).1 (mapEnv tgt).1).1), none⟩,
        none) := by
  unfold syncGo
  dsimp only
  rw [h1, h2]
  cases hb : f.backupCpFails <;>
    simp [hb, h3, h4 ▸ (hb ▸ rfl : (f.backupCpFails && v.isFlat) = (f.backupCpFails && v.isFlat)), deferredCleanup] <;>
    simp [hb, h3, deferredCleanup] at h4 ⊢ <;>
    simp [h4]

theorem syncGo_success_inv (v : Variant) (f : Faults) (src tgt : Str) (b : Option Str)
    (w' : World) (h : syncGo v f ⟨some src, some tgt, b⟩ = (w', none)) :
    (mapEnv src).2 = none ∧ (mapEnv tgt).2 = none ∧ f.writeFails = false ∧
    (f.backupCpFails && v.isFlat) = false ∧
    w' = ⟨some src, some (writeEnvV v (appendNewEnv (mapEnv src).1 (mapEnv tgt).1).1), none⟩ := by
  unfold syncGo at h
  dsimp only at h
  cases hs : (mapEnv src).2 with
  | some l => rw [hs] at h; simp at h
  | none =>
    rw [hs] at h
    cases ht : (mapEnv tgt).2 with
    | some l => rw [ht] at h; simp at h
    | none =>
      rw [ht] at h
      cases hbf : f.backupCpFails && v.isFlat with
      | true => rw [hbf] at h; simp at h
      | false =>
        rw [hbf] at h
        cases hw : f.writeFails with
        | true => rw [hw] at h; simp [deferredCleanup] at h
        | false =>
          rw [hw] at h
          cases hb : f.backupCpFails <;>
            simp [hb, deferredCleanup] at h <;>
            first
              | exact ⟨rfl, rfl, rfl, rfl, h.symm⟩
              | exact ⟨rfl, rfl, rfl, rfl, h⟩

/-! ## Claim theorems -/

/-- C1: the spec claims that when an error occurs after the backup snapshot
is taken (in particular a `writeEnv` failure), the cleanup restores the
target from the backup, so the target's content after `Sync` equals its
content before.  The Go deferred cleanup receives `err` evaluated at defer
time (always nil), so the restore never runs: on this concrete run of
either variant the write fails after truncation, `Sync` returns the write
error, the target is left empty — not its prior `A=1\n` — and the backup
is deleted. -/
theorem C1_write_failure_not_rolled_back :
    syncGo .grouped ⟨false, true⟩ ⟨some ("B=2\n".toList), some ("A=1\n".toList), none⟩
      = (⟨some ("B=2\n".toList), some [], none⟩, some .write) ∧
    syncGo .flat ⟨false, true⟩ ⟨some ("B=2\n".toList), some ("A=1\n".toList), none⟩
      = (⟨some ("B=2\n".toList), some [], none⟩, some .write) ∧
    ([] : Str) ≠ "A=1\n".toList := by
  decide

/-- C2: after a successful `Sync` of either variant, the target parses
without error and its mapping is the original target mapping united with
the source mapping restricted to keys absent from the target: every key
found in the original target keeps its target value, and every other key
gets its source value (if any). -/
theorem C2_success_merges_without_overwrite (v : Variant) (f : Faults)
    (src tgt : Str) (b : Option Str) (w' : World)
    (h : syncGo v f ⟨some src, some tgt, b⟩ = (w', none)) :
    ∃ t', w'.target = some t' ∧ (mapEnv t').2 = none ∧
      ∀ q, lookupEnv (mapEnv t').1 q =
        match lookupEnv (mapEnv tgt).1 q with
        | some w => some w
        | none => lookupEnv (mapEnv src).1 q := by
  obtain ⟨h1, h2, h3, h4, hw⟩ := syncGo_success_inv v f src tgt b w' h
  subst hw
  have hgood : GoodEnv (appendNewEnv (mapEnv src).1 (mapEnv tgt).1).1 :=
    appendNewEnvAux_good _ _ _ (mapEnv_goodEnv tgt) (mapEnv_goodEnv src)
  refine ⟨writeEnvV v (appendNewEnv (mapEnv src).1 (mapEnv tgt).1).1, rfl,
    (roundtrip_writeEnvV v _ hgood).1, ?_⟩
  intro q
  rw [(roundtrip_writeEnvV v _ hgood).2 q]
  exact appendNewEnv_fst_lookup (mapEnv src).1 (mapEnv tgt).1 q

/-- Witness for C2 at a concrete run: source `B=2`, target `A=1`. -/
theorem C2_success_merges_without_overwrite_witness :
    syncGo .flat ⟨false, false⟩ ⟨some ("B=2\n".toList), some ("A=1\n".toList), none⟩
      = (⟨some ("B=2\n".toList), some ("A=1\nB=2\n".toList), none⟩, none) ∧
    (∃ t', (⟨some ("B=2\n".toList), some ("A=1\nB=2\n".toList), none⟩ : World).target
        = some t' ∧ (mapEnv t').2 = none ∧
      ∀ q, lookupEnv (mapEnv t').1 q =
        match lookupEnv (mapEnv ("A=1\n".toList)).1 q with
        | some w => some w
        | none => lookupEnv (mapEnv ("B=2\n".toList)).1 q) :=
  ⟨by decide,
    C2_success_merges_without_overwrite .flat ⟨false, false⟩ _ _ none _ (by decide)⟩

/-- C3 as stated is false on the grouped variant: there the result of the
backup `cp` command is discarded, so on this concrete run with the backup
copy failing, `Sync` returns no error and rewrites the target anyway. -/
theorem C3_counterexample_grouped_ignores_backup_failure :
    (syncGo .grouped ⟨true, false⟩
        ⟨some ("B=2\n".toList), some ("A=1\n".toList), none⟩).2 = none ∧
    (syncGo .grouped ⟨true, false⟩
        ⟨some ("B=2\n".toList), some ("A=1\n".toList), none⟩).1.target
      = some ("# A\nA=1\n\n# B\nB=2\n".toList) ∧
    ("# A\nA=1\n\n# B\nB=2\n".toList : Str) ≠ "A=1\n".toList := by
  decide

/-- C3 amended: in the flat variant (`envsync.go`), where the copy error is
checked, a failing backup copy makes `Sync` return that error and abort
with the target untouched, before truncate and write. -/
theorem C3_flat_backup_copy_failure_aborts (f : Faults) (src tgt : Str) (b : Option Str)
    (h1 : (mapEnv src).2 = none) (h2 : (mapEnv tgt).2 = none)
    (hb : f.backupCpFails = true) :
    syncGo .flat f ⟨some src, some tgt, b⟩
      = (⟨some src, some tgt, none⟩, some .backupCp) := by
  unfold syncGo
  dsimp only
  rw [h1, h2]
  simp [hb, deferredCleanup, Variant.isFlat]

/-- Witness for the amended C3 at a concrete run. -/
theorem C3_flat_backup_copy_failure_aborts_witness :
    syncGo .flat ⟨true, false⟩ ⟨some ("B=2\n".toList), some ("A=1\n".toList), none⟩
      = (⟨some ("B=2\n".toList), some ("A=1\n".toList), none⟩, some .backupCp) :=
  C3_flat_backup_copy_failure_aborts ⟨true, false⟩ _ _ none (by decide) (by decide) rfl

/-- C4: when the source or the target contains a non-comment, non-blank
line without `=`, `Sync` (either variant, any faults) returns a parse
error and the target's content is unchanged. -/
theorem C4_parse_error_aborts_unchanged (v : Variant) (f : Faults) (src tgt : Str)
    (b : Option Str) (h : hasBadLine src ∨ hasBadLine tgt) :
    (∃ l, (syncGo v f ⟨some src, some tgt, b⟩).2 = some (.parseSource l) ∨
          (syncGo v f ⟨some src, some tgt, b⟩).2 = some (.parseTarget l)) ∧
    (syncGo v f ⟨some src, some tgt, b⟩).1.target = some tgt := by
  cases hs : (mapEnv src).2 with
  | some l =>
    have hrun : syncGo v f ⟨some src, some tgt, b⟩
        = (deferredCleanup ⟨some src, some tgt, b⟩, some (.parseSource l)) := by
      unfold syncGo
      dsimp only
      rw [hs]
    rw [hrun]
    exact ⟨⟨l, Or.inl rfl⟩, rfl⟩
  | none =>
    have htb : hasBadLine tgt := by
      rcases h with h | h
      · exfalso
        have hbad := mapEnvLines_error_of_bad (scanLines src) [] h
        rw [show mapEnvLines (scanLines src) [] = mapEnv src from rfl, hs] at hbad
        simp at hbad
      · exact h
    have hbad := mapEnvLines_error_of_bad (scanLines tgt) [] htb
    rw [show mapEnvLines (scanLines tgt) [] = mapEnv tgt from rfl] at hbad
    cases ht : (mapEnv tgt).2 with
    | none => rw [ht] at hbad; simp at hbad
    | some l =>
      have hrun : syncGo v f ⟨some src, some tgt, b⟩
          = (deferredCleanup ⟨some src, some tgt, b⟩, some (.parseTarget l)) := by
        unfold syncGo
        dsimp only
        rw [hs, ht]
      rw [hrun]
      exact ⟨⟨l, Or.inr rfl⟩, rfl⟩

/-- Witness for C4 at a concrete run: the source holds the line `BADLINE`. -/
theorem C4_parse_error_aborts_unchanged_witness :
    (hasBadLine ("BADLINE\n".toList) ∨ hasBadLine ("A=1\n".toList)) ∧
    ((∃ l, (syncGo .grouped ⟨false, false⟩
          ⟨some ("BADLINE\n".toList), some ("A=1\n".toList), none⟩).2
            = some (.parseSource l) ∨
        (syncGo .grouped ⟨false, false⟩
          ⟨some ("BADLINE\n".toList), some ("A=1\n".toList), none⟩).2
            = some (.parseTarget l)) ∧
      (syncGo .grouped ⟨false, false⟩
        ⟨some ("BADLINE\n".toList), some ("A=1\n".toList), none⟩).1.target
          = some ("A=1\n".toList)) :=
  ⟨by decide,
    C4_parse_error_aborts_unchanged .grouped ⟨false, false⟩ _ _ none (by decide)⟩

/-- C5: idempotence.  If a `Sync` run succeeds, a second run with the same
source and the updated target succeeds and leaves the target's content
exactly as after the first run (same parsed keys, hence no duplicate keys
or headers in the rewritten text). -/
theorem C5_sync_idempotent (v : Variant) (f f₂ : Faults) (src tgt : Str)
    (b b₂ : Option Str) (w₁ : World)
    (h : syncGo v f ⟨some src, some tgt, b⟩ = (w₁, none))
    (h2w : f₂.writeFails = false) (h2b : (f₂.backupCpFails && v.isFlat) = false) :
    ∃ t₁, w₁.target = some t₁ ∧
      syncGo v f₂ ⟨some src, some t₁, b₂⟩ = (⟨some src, some t₁, none⟩, none) := by
  obtain ⟨h1, h2, h3, h4, hw⟩ := syncGo_success_inv v f src tgt b w₁ h
  subst hw
  have hmgood : GoodEnv (appendNewEnv (mapEnv src).1 (mapEnv tgt).1).1 :=
    appendNewEnvAux_good _ _ _ (mapEnv_goodEnv tgt) (mapEnv_goodEnv src)
  have hmnodup : (keysOf (appendNewEnv (mapEnv src).1 (mapEnv tgt).1).1).Nodup :=
    appendNewEnvAux_nodup _ _ _ (mapEnv_nodup tgt)
  have hrt := roundtrip_writeEnvV v _ hmgood
  refine ⟨writeEnvV v (appendNewEnv (mapEnv src).1 (mapEnv tgt).1).1, rfl, ?_⟩
  have hall : ∀ p ∈ (mapEnv src).1,
      (lookupEnv (mapEnv (writeEnvV v (appendNewEnv (mapEnv src).1 (mapEnv tgt).1).1)).1
        p.1).isSome := by
    intro p hp
    rw [hrt.2 p.1, appendNewEnv_fst_lookup (mapEnv src).1 (mapEnv tgt).1 p.1]
    have hsrc : (lookupEnv (mapEnv src).1 p.1).isSome := mem_lookup_isSome _ p hp
    cases hl : lookupEnv (mapEnv tgt).1 p.1 with
    | none => simpa using hsrc
    | some w => simp
  have hmerged2 : (appendNewEnv (mapEnv src).1
      (mapEnv (writeEnvV v (appendNewEnv (mapEnv src).1 (mapEnv tgt).1).1)).1).1
        = (mapEnv (writeEnvV v (appendNewEnv (mapEnv src).1 (mapEnv tgt).1).1)).1 :=
    appendNewEnv_all_found _ _ hall
  have hwv : writeEnvV v
      (mapEnv (writeEnvV v (appendNewEnv (mapEnv src).1 (mapEnv tgt).1).1)).1
        = writeEnvV v (appendNewEnv (mapEnv src).1 (mapEnv tgt).1).1 :=
    writeEnvV_congr v _ _ (mapEnv_nodup _) hmnodup hrt.2
  rw [syncGo_run v f₂ src _ b₂ h1 hrt.1 h2w h2b, hmerged2, hwv]

/-- Witness for C5 at a concrete run. -/
theorem C5_sync_idempotent_witness :
    syncGo .grouped ⟨false, false⟩
        ⟨some ("B=2\n".toList), some ("A=1\n".toList), none⟩
      = (⟨some ("B=2\n".toList), some ("# A\nA=1\n\n# B\nB=2\n".toList), none⟩, none) ∧
    (∃ t₁, (⟨some ("B=2\n".toList), some ("# A\nA=1\n\n# B\nB=2\n".toList), none⟩
          : World).target = some t₁ ∧
      syncGo .grouped ⟨false, false⟩ ⟨some ("B=2\n".toList), some t₁, none⟩
        = (⟨some ("B=2\n".toList), some t₁, none⟩, none)) :=
  ⟨by decide,
    C5_sync_idempotent .grouped ⟨false, false⟩ ⟨false, false⟩ ("B=2\n".toList)
      ("A=1\n".toList) none none
      ⟨some ("B=2\n".toList), some ("# A\nA=1\n\n# B\nB=2\n".toList), none⟩
      (by decide) rfl rfl⟩

/-- C6: the flat writer emits, for a mapping, exactly one `key=value\n`
line per key — the emitted key list is a permutation of the mapping's keys
— in ascending lexicographic (codepoint) order, and the output is a
function of the mapping's extension alone (any reordering of the bindings
writes the same text). -/
theorem C6_flat_writer_sorted_deterministic (env : EnvMap)
    (h : (keysOf env).Nodup) :
    List.Perm (sortKeys env) (keysOf env) ∧
    List.Sorted (· ≤ ·) (sortKeys env) ∧
    writeEnvFlat env = ((sortKeys env).map (lineOf env)).flatten ∧
    ∀ env₂, (keysOf env₂).Nodup → (∀ q, lookupEnv env₂ q = lookupEnv env q) →
      writeEnvFlat env₂ = writeEnvFlat env := by
  refine ⟨sortKeys_perm env, sortKeys_sorted env, rfl, ?_⟩
  intro env₂ h₂ hq
  exact writeEnvV_congr .flat env₂ env h₂ h hq

/-- Witness for C6 at a concrete mapping. -/
theorem C6_flat_writer_sorted_deterministic_witness :
    (keysOf [(['B'], ['1']), (['A'], ['2'])]).Nodup ∧
    (List.Perm (sortKeys [(['B'], ['1']), (['A'], ['2'])])
        (keysOf [(['B'], ['1']), (['A'], ['2'])]) ∧
      List.Sorted (· ≤ ·) (sortKeys [(['B'], ['1']), (['A'], ['2'])]) ∧
      writeEnvFlat [(['B'], ['1']), (['A'], ['2'])]
        = ((sortKeys [(['B'], ['1']), (['A'], ['2'])]).map
            (lineOf [(['B'], ['1']), (['A'], ['2'])])).flatten ∧
      ∀ env₂, (keysOf env₂).Nodup →
        (∀ q, lookupEnv env₂ q = lookupEnv [(['B'], ['1']), (['A'], ['2'])] q) →
        writeEnvFlat env₂ = writeEnvFlat [(['B'], ['1']), (['A'], ['2'])]) :=
  ⟨by decide, C6_flat_writer_sorted_deterministic _ (by decide)⟩

/-- C7 as stated is false: the grouped writer's group tracker starts at the
empty string, so a first key whose group label is empty (a key starting
with `_`) gets no header at all, while the described behavior emits a
`# ` header before it. -/
theorem C7_counterexample_empty_first_group :
    writeEnvGrouped [(['_', 'A'], ['1'])] = "_A=1\n".toList ∧
    writeEnvGroupedSpec [(['_', 'A'], ['1'])] = "# \n_A=1\n".toList ∧
    writeEnvGrouped [(['_', 'A'], ['1'])] ≠ writeEnvGroupedSpec [(['_', 'A'], ['1'])] := by
  decide

/-- Helper for the amended C7: away from the first key, the code's loop and
the described behavior agree, whatever the previous group label is. -/
theorem writeGroupedAux_eq_spec (env : EnvMap) : ∀ (ks : List Str) (g : Str),
    writeGroupedAux env ks g false = writeGroupedSpecAux env ks (some g) := by
  intro ks
  induction ks with
  | nil => intro g; rfl
  | cons k ks ih =>
    intro g
    by_cases hg : prefixKey k = g
    · rw [writeGroupedAux_cons_same env k ks g false hg]
      simp [writeGroupedSpecAux, hg, ih g]
    · rw [writeGroupedAux_cons_change_rest env k ks g hg]
      simp [writeGroupedSpecAux, hg, ih (prefixKey k)]

/-- C7 amended: the grouped writer behaves exactly as described — every
change of group label yields a blank line and a `# <group>` header, the
first group's header without the leading blank line — provided the first
(smallest) key's group label is not the empty string; a first key whose
label is empty (key starting with `_`) gets no header. -/
theorem C7_amended_grouped_writer (env : EnvMap)
    (h : ((sortKeys env).head?.map prefixKey) ≠ some []) :
    writeEnvGrouped env = writeEnvGroupedSpec env := by
  unfold writeEnvGrouped writeEnvGroupedSpec
  cases hks : sortKeys env with
  | nil => rfl
  | cons k ks =>
    have hg : prefixKey k ≠ [] := by
      rw [hks] at h
      simpa using h
    rw [writeGroupedAux_cons_change_first env k ks [] hg]
    simp [writeGroupedSpecAux, writeGroupedAux_eq_spec env ks (prefixKey k)]

/-- Witness for the amended C7 at a concrete mapping. -/
theorem C7_amended_grouped_writer_witness :
    ((sortKeys [(['A', '_', 'X'], ['1']), (['B'], ['2'])]).head?.map prefixKey)
        ≠ some [] ∧
    writeEnvGrouped [(['A', '_', 'X'], ['1']), (['B'], ['2'])]
      = writeEnvGroupedSpec [(['A', '_', 'X'], ['1']), (['B'], ['2'])] :=
  ⟨by decide, C7_amended_grouped_writer _ (by decide)⟩

/-- C8: line behavior of the parser loop — blank lines and `#` lines are
skipped; a line containing `=` contributes the key before its first `=`
and the value after it (which may contain further `=`); the first line
with no `=` stops the loop, which returns that line as the error together
with the partial map built from the preceding lines. -/
theorem C8_parser_line_behavior :
    (∀ (ls : List Str) (acc : EnvMap),
      mapEnvLines ([] :: ls) acc = mapEnvLines ls acc) ∧
    (∀ (l : Str) (ls : List Str) (acc : EnvMap), l.head? = some '#' →
      mapEnvLines (l :: ls) acc = mapEnvLines ls acc) ∧
    (∀ (l : Str) (ls : List Str) (acc : EnvMap),
      l ≠ [] → l.head? ≠ some '#' → '=' ∈ l →
      mapEnvLines (l :: ls) acc
        = mapEnvLines ls (insertEnv acc (l.takeWhile (· ≠ '='))
            ((l.dropWhile (· ≠ '=')).tail))) ∧
    (∀ (l : Str) (ls : List Str) (acc : EnvMap), BadLine l →
      mapEnvLines (l :: ls) acc = (acc, some l)) := by
  refine ⟨mapEnvLines_skip_empty, mapEnvLines_skip_comment, ?_, mapEnvLines_bad⟩
  intro l ls acc h1 h2 h3
  exact mapEnvLines_step l _ _ ls acc h1 h2 (splitLineEq_takeWhile l h3)

/-- Witness for C8 at concrete lines, one per clause. -/
theorem C8_parser_line_behavior_witness :
    mapEnvLines ([] :: [['A', '=', '1']]) [] = mapEnvLines [['A', '=', '1']] [] ∧
    mapEnvLines (['#', 'x'] :: []) [] = mapEnvLines [] [] ∧
    mapEnvLines (['A', '=', '1', '=', '2'] :: []) []
      = mapEnvLines [] (insertEnv []
          (['A', '=', '1', '=', '2'].takeWhile (· ≠ '='))
          ((['A', '=', '1', '=', '2'].dropWhile (· ≠ '=')).tail)) ∧
    mapEnvLines (['B'] :: []) [] = ([], some ['B']) :=
  ⟨C8_parser_line_behavior.1 _ _,
    C8_parser_line_behavior.2.1 _ _ _ (by decide),
    C8_parser_line_behavior.2.2.1 _ _ _ (by decide) (by decide) (by decide),
    C8_parser_line_behavior.2.2.2 _ _ _ (by decide)⟩

/-- C9: on a file whose lines are all valid, the parser reports no error
and, for every key, the resulting mapping holds the value of the last line
assigning that key (last-write-wins); duplicated keys therefore never
cause an error. -/
theorem C9_last_write_wins (s : Str) (h : ∀ l ∈ scanLines s, ¬ BadLine l) :
    (mapEnv s).2 = none ∧ ∀ k, lookupEnv (mapEnv s).1 k = lastVal k (scanLines s) := by
  constructor
  · exact mapEnvLines_none_of_good (scanLines s) [] h
  · intro k
    rw [show (mapEnv s).1 = (mapEnvLines (scanLines s) []).1 from rfl,
      lookupEnv_mapEnvLines (scanLines s) [] k h]
    cases hlv : lastVal k (scanLines s) <;> simp [lookupEnv, hlv]

/-- Witness for C9 on a file assigning `A` twice: the later value wins. -/
theorem C9_last_write_wins_witness :
    (∀ l ∈ scanLines ("A=1\nA=2\n".toList), ¬ BadLine l) ∧
    ((mapEnv ("A=1\nA=2\n".toList)).2 = none ∧
      ∀ k, lookupEnv (mapEnv ("A=1\nA=2\n".toList)).1 k
        = lastVal k (scanLines ("A=1\nA=2\n".toList))) :=
  ⟨by decide, C9_last_write_wins _ (by decide)⟩

/-- C10: round trip.  For a mapping whose keys contain no `=` and no
newline and do not start with `#`, and whose values contain no newline,
parsing the text written by either writer returns no error and yields
exactly the original mapping (same value at every key); the grouped
headers and blank separators are skipped by the parser. -/
theorem C10_write_parse_roundtrip (env : EnvMap) (hn : (keysOf env).Nodup)
    (hg : GoodEnv env) :
    ((mapEnv (writeEnvFlat env)).2 = none ∧
      ∀ q, lookupEnv (mapEnv (writeEnvFlat env)).1 q = lookupEnv env q) ∧
    ((mapEnv (writeEnvGrouped env)).2 = none ∧
      ∀ q, lookupEnv (mapEnv (writeEnvGrouped env)).1 q = lookupEnv env q) :=
  ⟨roundtrip_writeEnvV .flat env hg, roundtrip_writeEnvV .grouped env hg⟩

/-- Witness for C10 at a concrete mapping. -/
theorem C10_write_parse_roundtrip_witness :
    (keysOf [(['B'], ['2']), (['A', '_', 'X'], ['1'])]).Nodup ∧
    GoodEnv [(['B'], ['2']), (['A', '_', 'X'], ['1'])] ∧
    (((mapEnv (writeEnvFlat [(['B'], ['2']), (['A', '_', 'X'], ['1'])])).2 = none ∧
      ∀ q, lookupEnv (mapEnv (writeEnvFlat [(['B'], ['2']), (['A', '_', 'X'], ['1'])])).1 q
        = lookupEnv [(['B'], ['2']), (['A', '_', 'X'], ['1'])] q) ∧
    ((mapEnv (writeEnvGrouped [(['B'], ['2']), (['A', '_', 'X'], ['1'])])).2 = none ∧
      ∀ q, lookupEnv (mapEnv (writeEnvGrouped [(['B'], ['2']), (['A', '_', 'X'], ['1'])])).1 q
        = lookupEnv [(['B'], ['2']), (['A', '_', 'X'], ['1'])] q)) :=
  ⟨by decide, by decide, C10_write_parse_roundtrip _ (by decide) (by decide)⟩

end Envsync
